import Mathlib

/-!
Shallow embedding of `app/assets/model.py` (MagmaFi/Magma-Dapp-API): the
`Token` cache model and its price-resolution pipeline
(dexscreener screener → defillama oracle → on-chain router quote),
together with `find`/`from_chain` record materialisation and the
`from_tokenlists` catalog ingestion loop.

Modelling conventions:
- Python floats are modelled as exact rationals `ℚ` (the claims under
  study concern control flow and exact values, not rounding).
- Each network/chain client is an explicit environment function returning
  `Except Exc _`; a `.error` value models the client raising.
- The walrus key-value store is an association list keyed by the token
  address (primary key); `save` is the upsert that `Model.save` /
  `Model.create` perform.
- Exceptions are an enumerated type covering exactly the exception classes
  the source distinguishes (`requests.exceptions.HTTPError`,
  `requests.exceptions.JSONDecodeError`, `web3`'s `ContractLogicError`,
  Python `KeyError` / `IndexError` / `ValueError` / `AttributeError`, and a
  generic transport fault `connectionError` standing for any other
  `requests` failure).  `outOfFuel` is an artifact of the fuel parameter
  that bounds the (terminating, depth ≤ 2) recursion
  `find → from_chain → _update_price → chain_price_in_stables → find`;
  it is unreachable for fuel ≥ 2.
-/

set_option maxRecDepth 20000

namespace Magma

/-- Exception kinds distinguished by the source. -/
inductive Exc where
  | httpError
  | jsonDecodeError
  | connectionError
  | contractLogicError
  | keyError
  | indexError
  | valueError
  | attributeError
  | outOfFuel
deriving DecidableEq

instance {ε α : Type} [DecidableEq ε] [DecidableEq α] :
    DecidableEq (Except ε α) := fun a b =>
  match a, b with
  | .error x, .error y =>
    if h : x = y then .isTrue (by rw [h]) else .isFalse (by simp [h])
  | .error _, .ok _ => .isFalse (by simp)
  | .ok _, .error _ => .isFalse (by simp)
  | .ok x, .ok y =>
    if h : x = y then .isTrue (by rw [h]) else .isFalse (by simp [h])

/-- The `Token` walrus model: one record per contract address. -/
structure Token where
  address : String
  name : String
  symbol : String
  decimals : ℕ
  logoURI : String
  price : ℚ
  stable : Bool
  liquid_staked_address : String
deriving DecidableEq

/-- One trading pair from a dexscreener response: `{ chainId, priceUsd }`.
`priceUsd = none` models the key being absent or null. -/
structure Pair where
  chainId : String
  priceUsd : Option String
deriving DecidableEq

/-- A dexscreener `/latest/dex/tokens/{address}` response body.
The outer `Option` is whether the `pairs` key is present, the inner one
whether its value is null. -/
structure DexRes where
  pairs : Option (Option (List Pair))
deriving DecidableEq

/-- One coin entry of a defillama response; `price = none` models the
`price` key being absent (the source reads `coin.get("price", 0)`). -/
structure LlamaCoin where
  price : Option ℚ
deriving DecidableEq

/-- A defillama `/prices/current/...` response body: `coins` as an ordered
key/value listing (Python dicts iterate in insertion order). -/
structure LlamaRes where
  coins : List (String × LlamaCoin)
deriving DecidableEq

/-- Result of the identity multicall: `name()`, `symbol()`, `decimals()`. -/
structure Identity where
  name : String
  symbol : String
  decimals : ℕ
deriving DecidableEq

/-- One entry of a tokenlist feed.  `chainId = none` models the key being
absent (`token_data.get("chainId", None)`); `liquid_staked_address = none`
and `tags = none` model those keys being absent, which makes the direct
subscripts `token_data["liquid_staked_address"]` / `token_data["tags"]`
raise `KeyError`. -/
structure TLEntry where
  chainId : Option ℤ
  address : String
  name : String
  symbol : String
  decimals : ℕ
  logoURI : String
  liquid_staked_address : Option String
  tags : Option (List String)
deriving DecidableEq

/-- The external world: every upstream client the module calls, as a
deterministic function of the request it is given. -/
structure Env where
  /-- `requests.get(DEXSCREENER_ENDPOINT + address).json()`. -/
  dexscreener : String → Except Exc DexRes
  /-- `requests.get(DEFILLAMA_ENDPOINT + chain_token).json()`,
  keyed by the full `"kava:" ++ lowered address` token. -/
  defillama : String → Except Exc LlamaRes
  /-- `Call(router, ["getAmountOut(...)", amountIn, tokenIn, tokenOut])()`. -/
  getAmountOut : String → ℕ → String → String → Except Exc (ℕ × Bool)
  /-- The `Multicall` fetching `name()/symbol()/decimals()` of an address. -/
  identity : String → Except Exc Identity
  /-- `requests.get(tokenlist_url).json()`; `.ok none` models a response
  without a `"tokens"` key (the subscript then raises `KeyError`). -/
  feeds : String → Except Exc (Option (List TLEntry))
  /-- `w3.eth.chain_id`. -/
  chain_id : ℤ

/-- The configuration read from `app.settings`. -/
structure Config where
  STABLE_TOKEN_ADDRESS : String
  BLUECHIP_TOKEN_ADDRESSES : List String
  IGNORED_TOKEN_ADDRESSES : List String
  TOKENLISTS : List String
  ROUTER_ADDRESS : String

/-- The walrus cache: an association list keyed by token address. -/
abbrev Store := List (String × Token)

/-- Key lookup in the cache (walrus `Model.load`; `none` models the
`KeyError` outcome). -/
def load : Store → String → Option Token
  | [], _ => none
  | (k, t) :: rest, a => if k = a then some t else load rest a

/-- Upsert by primary key (walrus `Model.save` / `Model.create`). -/
def save (s : Store) (t : Token) : Store :=
  if (load s t.address).isSome then
    s.map (fun kv => if kv.1 = t.address then (t.address, t) else kv)
  else
    (t.address, t) :: s

/-- Python `str.lower`, restricted to the character-wise case mapping. -/
def lower (s : String) : String := String.mk (s.data.map Char.toLower)

/-- Python `str.replace(",", "")`. -/
def strip_commas (s : String) : String :=
  String.mk (s.data.filter (fun c => c != ','))

/-- Numeric value of a digit string (callers guard that all characters are
digits). -/
def nat_of_digits (cs : List Char) : ℕ :=
  cs.foldl (fun a c => 10 * a + (c.toNat - 48)) 0

/-- Python `str.split` on a single separator character. -/
def split_on_char (c : Char) : List Char → List (List Char)
  | [] => [[]]
  | d :: rest =>
    match split_on_char c rest with
    | [] => [[]]
    | g :: gs => if d = c then [] :: g :: gs else (d :: g) :: gs

/-- Model of the Python builtin `float(...)` on the decimal strings this
service handles: an optional minus sign, digits, and an optional single
decimal point with digits on at least one side.  `none` models
`ValueError`. -/
def float_of_string (s : String) : Option ℚ :=
  let core : List Char → Option ℚ := fun body =>
    match split_on_char '.' body with
    | [ip] =>
      if ip ≠ [] ∧ ip.all Char.isDigit then
        some ((nat_of_digits ip : ℚ))
      else none
    | [ip, fp] =>
      if (ip ≠ [] ∨ fp ≠ []) ∧ ip.all Char.isDigit ∧
          fp.all Char.isDigit then
        some ((nat_of_digits ip : ℚ) +
          (nat_of_digits fp : ℚ) / 10 ^ fp.length)
      else none
    | _ => none
  match s.data with
  | '-' :: rest => (core rest).map (fun q => -q)
  | _ => core s.data

/-- The `pairs` list the source works with:
`res.get("pairs") or []` (absent, null and empty all collapse to `[]`). -/
def getPairs (res : DexRes) : List Pair := (res.pairs.getD none).getD []

/-- The price string of a selected pair before comma-stripping:
`str(pair.get("priceUsd") or 0)` — an absent/null/empty value is the falsy
case and becomes `"0"`. -/
def price_usd_string (p : Pair) : String :=
  match p.priceUsd with
  | none => "0"
  | some s => if s = "" then "0" else s

/-- Comma-stripping and float-parsing of a selected pair's USD price:
`float(str(pair.get("priceUsd") or 0).replace(",", ""))`. -/
def parse_pair (p : Pair) : Except Exc ℚ :=
  match float_of_string (strip_commas (price_usd_string p)) with
  | none => .error .valueError
  | some q => .ok q

/-- `Token.dexscreener_price_in_stables` (the primary screener pass). -/
def Token.dexscreener_price_in_stables (cfg : Config) (env : Env)
    (t : Token) : Except Exc ℚ :=
  if t.address = cfg.STABLE_TOKEN_ADDRESS then .ok 1 else
  match env.dexscreener t.address with
  | .error e => .error e
  | .ok res =>
    match getPairs res with
    | [] => .ok 0
    | p0 :: _ =>
      match (getPairs res).filter (fun p => p.chainId == "kava") with
      | [] => parse_pair p0
      | k :: _ => parse_pair k

/-- `Token.defillama_price_in_stables` (the fair-value oracle pass). -/
def Token.defillama_price_in_stables (cfg : Config) (env : Env)
    (t : Token) : Except Exc ℚ :=
  if t.address = cfg.STABLE_TOKEN_ADDRESS then .ok 1 else
  match env.defillama ("kava:" ++ lower t.address) with
  | .error e => .error e
  | .ok res =>
    match res.coins with
    | [] => .ok 0
    | (_, coin) :: _ => .ok (coin.price.getD 0)

/-- `Token.aggregated_price_in_stables`: primary screener price, trusted
when non-zero for non-bluechip tokens; otherwise the oracle is consulted,
with only `HTTPError` and `JSONDecodeError` caught (falling back to the
primary price). -/
def Token.aggregated_price_in_stables (cfg : Config) (env : Env)
    (t : Token) : Except Exc ℚ :=
  match Token.dexscreener_price_in_stables cfg env t with
  | .error e => .error e
  | .ok price =>
    if price ≠ 0 ∧ t.address ∉ cfg.BLUECHIP_TOKEN_ADDRESSES then .ok price
    else
      match Token.defillama_price_in_stables cfg env t with
      | .ok q => .ok q
      | .error e =>
        if e = .httpError ∨ e = .jsonDecodeError then .ok price
        else .error e

/-- The token record `cls.create(address=address, **data)` builds in
`Token.from_chain`: identity fields from the multicall, every other field
at its walrus default. -/
def mkChainToken (address : String) (idn : Identity) : Token :=
  { address := address, name := idn.name, symbol := idn.symbol,
    decimals := idn.decimals, logoURI := "", price := 0, stable := false,
    liquid_staked_address := "" }

mutual

/-- `Token.find`: `None` yields `None`; otherwise load the lowercased
address from the cache, falling back to `Token.from_chain` on `KeyError`.
The first component of the result is the cache afterwards (walrus writes
persist even when an exception later propagates).  The fuel parameter
bounds the (actually depth-bounded) recursion through
`Token.from_chain`; it is spent only when a recursive call is made, so
every non-recursive path is fuel-independent. -/
def Token.find (fuel : ℕ) (cfg : Config) (env : Env) (store : Store)
    (address : Option String) : Store × Except Exc (Option Token) :=
  match address with
  | none => (store, .ok none)
  | some a =>
    match load store (lower a) with
    | some t => (store, .ok (some t))
    | none =>
      match fuel with
      | 0 => (store, .error .outOfFuel)
      | f + 1 =>
        match Token.from_chain f cfg env store (lower a) with
        | (s, .error e) => (s, .error e)
        | (s, .ok t) => (s, .ok (some t))
termination_by structural fuel

/-- `Token.chain_price_in_stables`: the on-chain router quote.  Pegs the
reference asset at 1; otherwise looks the stablecoin record up via
`Token.find`, issues `getAmountOut(10 ** decimals, token, stable)` and
scales the returned amount by the stablecoin's decimals; only
`ContractLogicError` is caught (as price 0). -/
def Token.chain_price_in_stables (fuel : ℕ) (cfg : Config) (env : Env)
    (store : Store) (t : Token) : Store × Except Exc ℚ :=
  if t.address = cfg.STABLE_TOKEN_ADDRESS then (store, .ok 1) else
  match fuel with
  | 0 => (store, .error .outOfFuel)
  | f + 1 =>
    match Token.find f cfg env store (some cfg.STABLE_TOKEN_ADDRESS) with
    | (s, .error e) => (s, .error e)
    | (s, .ok none) => (s, .error .attributeError)
    | (s, .ok (some stablecoin)) =>
      match env.getAmountOut cfg.ROUTER_ADDRESS (10 ^ t.decimals) t.address
          stablecoin.address with
      | .error .contractLogicError => (s, .ok 0)
      | .error e => (s, .error e)
      | .ok (amount, _) => (s, .ok ((amount : ℚ) / 10 ^ stablecoin.decimals))
termination_by structural fuel

/-- `Token._update_price`: write the aggregated price onto the record,
fall back to the router quote exactly when that price is 0, and save. -/
def Token._update_price (fuel : ℕ) (cfg : Config) (env : Env)
    (store : Store) (t : Token) : Store × Except Exc Token :=
  match Token.aggregated_price_in_stables cfg env t with
  | .error e => (store, .error e)
  | .ok p =>
    let t1 := { t with price := p }
    if t1.price = 0 then
      match fuel with
      | 0 => (store, .error .outOfFuel)
      | f + 1 =>
        match Token.chain_price_in_stables f cfg env store t1 with
        | (s, .error e) => (s, .error e)
        | (s, .ok q) =>
          let t2 := { t1 with price := q }
          (save s t2, .ok t2)
    else (save store t1, .ok t1)
termination_by structural fuel

/-- `Token.from_chain`: batch-read `name()/symbol()/decimals()`, create
and persist the record, then resolve and persist its price. -/
def Token.from_chain (fuel : ℕ) (cfg : Config) (env : Env) (store : Store)
    (address : String) : Store × Except Exc Token :=
  let address := lower address
  match env.identity address with
  | .error e => (store, .error e)
  | .ok idn =>
    let t := mkChainToken address idn
    match fuel with
    | 0 => (save store t, .error .outOfFuel)
    | f + 1 => Token._update_price f cfg env (save store t) t
termination_by structural fuel

end

/-- Whether `needle` starts the list `hay` (used for the substring test
below). -/
def starts_with : List Char → List Char → Bool
  | [], _ => true
  | _ :: _, [] => false
  | a :: as, b :: bs => a == b && starts_with as bs

/-- Python's `needle in hay` on strings: substring containment. -/
def str_contains (hay needle : String) : Bool :=
  go hay.data
where
  go : List Char → Bool
    | [] => needle.data.isEmpty
    | c :: cs => starts_with needle.data (c :: cs) || go cs

/-- Processing of one tokenlist entry inside the `for token_data in
res["tokens"]` loop.  `.error` models an exception escaping the entry
(aborting the rest of that feed); the returned store keeps whatever was
already persisted. -/
def process_entry (fuel : ℕ) (cfg : Config) (env : Env) (chainid : ℤ)
    (store : Store) (e : TLEntry) : Store × Except Exc Unit :=
  if e.chainId ≠ some chainid then (store, .ok ()) else
  let addr := lower e.address
  if addr ∈ cfg.IGNORED_TOKEN_ADDRESSES then (store, .ok ()) else
  match e.liquid_staked_address with
  | none => (store, .error .keyError)
  | some lsa0 =>
    let lsa := if lsa0 ≠ "" then lower lsa0 else lsa0
    let t0 : Token :=
      { address := addr, name := e.name, symbol := e.symbol,
        decimals := e.decimals, logoURI := e.logoURI, price := 0,
        stable := false, liquid_staked_address := lsa }
    let s1 := save store t0
    match e.tags with
    | none => (s1, .error .keyError)
    | some [] => (s1, .error .indexError)
    | some (tag0 :: _) =>
      let t1 := { t0 with stable := str_contains tag0 "stablecoin" }
      match Token._update_price fuel cfg env s1 t1 with
      | (s2, .error ex) => (s2, .error ex)
      | (s2, .ok _) => (s2, .ok ())

/-- Sequential processing of a feed's entries; the first raising entry
aborts the remaining ones (the `try` in the source wraps the whole inner
loop). -/
def process_entries (fuel : ℕ) (cfg : Config) (env : Env) (chainid : ℤ) :
    Store → List TLEntry → Store × Except Exc Unit
  | store, [] => (store, .ok ())
  | store, e :: rest =>
    match process_entry fuel cfg env chainid store e with
    | (s, .error ex) => (s, .error ex)
    | (s, .ok _) => process_entries fuel cfg env chainid s rest

/-- The per-feed loop of `Token.from_tokenlists`: any exception while
fetching or processing one feed is logged and swallowed, and ingestion
continues with the next feed on the store as mutated so far. -/
def from_tokenlists_go (fuel : ℕ) (cfg : Config) (env : Env) :
    List String → Store → Store
  | [], store => store
  | url :: rest, store =>
    let store1 :=
      match env.feeds url with
      | .error _ => store
      | .ok none => store
      | .ok (some entries) =>
        (process_entries fuel cfg env env.chain_id store entries).1
    from_tokenlists_go fuel cfg env rest store1

/-- `Token.from_tokenlists`: ingest every configured tokenlist feed. -/
def Token.from_tokenlists (fuel : ℕ) (cfg : Config) (env : Env)
    (store : Store) : Store :=
  from_tokenlists_go fuel cfg env cfg.TOKENLISTS store

/-- Concrete configuration for the closed evaluations below. -/
def cfg0 : Config :=
  { STABLE_TOKEN_ADDRESS := "0xusd", BLUECHIP_TOKEN_ADDRESSES := ["0xblue"],
    IGNORED_TOKEN_ADDRESSES := ["0xbad"], TOKENLISTS := ["u1"],
    ROUTER_ADDRESS := "0xrouter" }

/-- A stored stablecoin record. -/
def stbl0 : Token :=
  { address := "0xusd", name := "USD Coin", symbol := "USDC", decimals := 6,
    logoURI := "", price := 1, stable := true, liquid_staked_address := "" }

/-- A plain token record under resolution. -/
def tok0 : Token :=
  { address := "0xaaa", name := "Alpha", symbol := "ALF", decimals := 2,
    logoURI := "", price := 0, stable := false, liquid_staked_address := "" }

/-- A bluechip token record. -/
def tokBlue : Token :=
  { address := "0xblue", name := "Blue", symbol := "BLU", decimals := 2,
    logoURI := "", price := 0, stable := false, liquid_staked_address := "" }

/-- A store holding the stablecoin and `tok0`. -/
def store0 : Store := [("0xusd", stbl0), ("0xaaa", tok0)]

/-- Environment in which every upstream client succeeds: the screener has
one kava pair at 2.5 USD, the oracle says 3, the router quotes 4000000
base units. -/
def envOk : Env :=
  { dexscreener := fun _ =>
      .ok { pairs := some (some [{ chainId := "kava", priceUsd := some "2.5" }]) },
    defillama := fun _ => .ok { coins := [("c", { price := some 3 })] },
    getAmountOut := fun _ _ _ _ => .ok (4000000, false),
    identity := fun _ => .ok { name := "T", symbol := "T", decimals := 2 },
    feeds := fun _ => .error .connectionError,
    chain_id := 2222 }

/-- Environment in which every upstream client raises. -/
def envDown : Env :=
  { dexscreener := fun _ => .error .connectionError,
    defillama := fun _ => .error .connectionError,
    getAmountOut := fun _ _ _ _ => .error .connectionError,
    identity := fun _ => .error .connectionError,
    feeds := fun _ => .error .connectionError,
    chain_id := 2222 }

/-- Environment in which the screener reports no pairs and the oracle
raises a connection (transport) fault. -/
def envOracleDown : Env :=
  { envDown with
    dexscreener := fun _ => .ok { pairs := some (some []) },
    defillama := fun _ => .error .connectionError }

/-- The screener response body served by `envOk`. -/
def resOk : DexRes :=
  { pairs := some (some [{ chainId := "kava", priceUsd := some "2.5" }]) }

/-- A pair whose USD price string is empty (falsy in Python). -/
def pairEmpty : Pair := { chainId := "kava", priceUsd := some "" }

/-- Environment whose screener response carries a null `pairs` field. -/
def envNullPairs : Env :=
  { envDown with dexscreener := fun _ => .ok { pairs := some none } }

/-- Environment in which the screener reports no pairs and the oracle
raises an HTTP-status fault (one of the two caught exception classes). -/
def envHttpDown : Env :=
  { envDown with
    dexscreener := fun _ => .ok { pairs := some (some []) },
    defillama := fun _ => .error .httpError }

/-- Environment in which screener and oracle yield no data but the
on-chain router quotes 400 base units; identity reads succeed. -/
def envChainOnly : Env :=
  { dexscreener := fun _ => .ok { pairs := some none },
    defillama := fun _ => .ok { coins := [] },
    getAmountOut := fun _ _ _ _ => .ok (400, false),
    identity := fun _ => .ok { name := "N", symbol := "S", decimals := 2 },
    feeds := fun _ => .error .connectionError,
    chain_id := 2222 }

/-- Environment whose screener reports a negative USD price string. -/
def envNeg : Env :=
  { envDown with
    dexscreener := fun _ =>
      .ok { pairs := some (some [{ chainId := "kava",
                                   priceUsd := some "-5" }]) } }

/-- The identity record served by `envOk`. -/
def idn0 : Identity := { name := "T", symbol := "T", decimals := 2 }

/-- A tokenlist entry lacking the `liquid_staked_address` key: its
subscript raises `KeyError` mid-feed. -/
def eBad : TLEntry :=
  { chainId := some 2222, address := "0xb1", name := "B", symbol := "B",
    decimals := 1, logoURI := "", liquid_staked_address := none,
    tags := some ["t"] }

/-- A well-formed tokenlist entry. -/
def eGood : TLEntry :=
  { chainId := some 2222, address := "0xg", name := "G", symbol := "G",
    decimals := 1, logoURI := "", liquid_staked_address := some "",
    tags := some ["t"] }

/-- Environment whose only feed `"u1"` lists `eBad` before `eGood`. -/
def envTL : Env :=
  { envOk with feeds := fun u =>
      if u = "u1" then .ok (some [eBad, eGood])
      else .error .connectionError }

/-- Environment whose only feed `"u1"` lists just `eGood`. -/
def envTL2 : Env :=
  { envOk with feeds := fun u =>
      if u = "u1" then .ok (some [eGood])
      else .error .connectionError }

/-- The record that `find "0xNEW"` materialises against `envOk` over
`store0`. -/
def tokNew : Token :=
  { address := "0xnew", name := "T", symbol := "T", decimals := 2,
    logoURI := "", price := 5/2, stable := false,
    liquid_staked_address := "" }

/-- Every record in the store carries a non-negative price. -/
def StoreNonneg (s : Store) : Prop :=
  ∀ a u, load s a = some u → 0 ≤ u.price

/-- The screener and oracle passes only ever report non-negative prices
in the given environment. -/
def SourcesNonneg (cfg : Config) (env : Env) : Prop :=
  (∀ t q, Token.dexscreener_price_in_stables cfg env t = .ok q → 0 ≤ q) ∧
  (∀ t q, Token.defillama_price_in_stables cfg env t = .ok q → 0 ≤ q)

/-! ## Basic store lemmas -/

/-- Looking up the saved key finds the saved record. -/
theorem load_map_self (s : Store) (t : Token) :
    load (s.map (fun kv => if kv.1 = t.address then (t.address, t) else kv))
      t.address = (load s t.address).map (fun _ => t) := by
  induction s with
  | nil => rfl
  | cons kv rest ih =>
    simp only [List.map_cons]
    by_cases h : kv.1 = t.address
    · rw [if_pos h]
      simp [load, h]
    · rw [if_neg h]
      simp [load, h, ih]

/-- The in-place update of one key leaves other keys unchanged. -/
theorem load_map_other (s : Store) (t : Token) (k : String)
    (h : k ≠ t.address) :
    load (s.map (fun kv => if kv.1 = t.address then (t.address, t) else kv))
      k = load s k := by
  induction s with
  | nil => rfl
  | cons kv rest ih =>
    simp only [List.map_cons]
    by_cases hk : kv.1 = t.address
    · rw [if_pos hk]
      simp [load, Ne.symm h, hk, ih]
    · rw [if_neg hk]
      simp [load, ih]

/-- After `save`, the record is found under its address. -/
theorem load_save_self (s : Store) (t : Token) :
    load (save s t) t.address = some t := by
  unfold save
  split
  case isTrue hs =>
    rw [load_map_self]
    cases hl : load s t.address with
    | none => rw [hl] at hs; simp at hs
    | some u => rfl
  case isFalse hs => simp [load]

/-- `save` does not disturb other keys. -/
theorem load_save_other (s : Store) (t : Token) (k : String)
    (h : k ≠ t.address) : load (save s t) k = load s k := by
  unfold save
  split
  case isTrue hs => exact load_map_other s t k h
  case isFalse hs => simp [load, Ne.symm h]

/-- `Char.toLower` is idempotent. -/
theorem toLower_twice (c : Char) : c.toLower.toLower = c.toLower := by
  unfold Char.toLower
  by_cases h : c.toNat ≥ 65 ∧ c.toNat ≤ 90
  · rw [if_pos h]
    have hlt : c.toNat + 32 < 55296 := by omega
    have hv : Nat.isValidChar (c.toNat + 32) := Or.inl hlt
    have ht : (Char.ofNat (c.toNat + 32)).toNat = c.toNat + 32 := by
      rw [Char.ofNat, dif_pos hv]
      rfl
    rw [if_neg]
    rw [ht]
    omega
  · rw [if_neg h, if_neg h]

/-- Lowercasing is idempotent. -/
theorem lower_lower (s : String) : lower (lower s) = lower s := by
  simp [lower, List.map_map, Function.comp_def, toLower_twice]

/-! ## Unfolding equations for the fueled mutual definitions -/

/-- Unfolding equation for `Token.find`. -/
theorem Token.find_eq (fuel : ℕ) (cfg : Config) (env : Env) (store : Store)
    (address : Option String) :
    Token.find fuel cfg env store address =
      match address with
      | none => (store, .ok none)
      | some a =>
        match load store (lower a) with
        | some t => (store, .ok (some t))
        | none =>
          match fuel with
          | 0 => (store, .error .outOfFuel)
          | f + 1 =>
            match Token.from_chain f cfg env store (lower a) with
            | (s, .error e) => (s, .error e)
            | (s, .ok t) => (s, .ok (some t)) := by
  cases fuel <;> cases address <;> rfl

/-- Unfolding equation for `Token.chain_price_in_stables`. -/
theorem Token.chain_price_in_stables_eq (fuel : ℕ) (cfg : Config)
    (env : Env) (store : Store) (t : Token) :
    Token.chain_price_in_stables fuel cfg env store t =
      (if t.address = cfg.STABLE_TOKEN_ADDRESS then (store, .ok 1) else
      match fuel with
      | 0 => (store, .error .outOfFuel)
      | f + 1 =>
        match Token.find f cfg env store (some cfg.STABLE_TOKEN_ADDRESS) with
        | (s, .error e) => (s, .error e)
        | (s, .ok none) => (s, .error .attributeError)
        | (s, .ok (some stablecoin)) =>
          match env.getAmountOut cfg.ROUTER_ADDRESS (10 ^ t.decimals)
              t.address stablecoin.address with
          | .error .contractLogicError => (s, .ok 0)
          | .error e => (s, .error e)
          | .ok (amount, _) =>
            (s, .ok ((amount : ℚ) / 10 ^ stablecoin.decimals))) := by
  cases fuel <;> rfl

/-- Unfolding equation for `Token._update_price`. -/
theorem Token.update_price_eq (fuel : ℕ) (cfg : Config) (env : Env)
    (store : Store) (t : Token) :
    Token._update_price fuel cfg env store t =
      match Token.aggregated_price_in_stables cfg env t with
      | .error e => (store, .error e)
      | .ok p =>
        if p = 0 then
          match fuel with
          | 0 => (store, .error .outOfFuel)
          | f + 1 =>
            match Token.chain_price_in_stables f cfg env store
                { t with price := p } with
            | (s, .error e) => (s, .error e)
            | (s, .ok q) =>
              (save s { t with price := q }, .ok { t with price := q })
        else (save store { t with price := p }, .ok { t with price := p }) := by
  cases fuel <;> rfl

/-- Unfolding equation for `Token.from_chain`. -/
theorem Token.from_chain_eq (fuel : ℕ) (cfg : Config) (env : Env)
    (store : Store) (address : String) :
    Token.from_chain fuel cfg env store address =
      match env.identity (lower address) with
      | .error e => (store, .error e)
      | .ok idn =>
        match fuel with
        | 0 =>
          (save store (mkChainToken (lower address) idn), .error .outOfFuel)
        | f + 1 =>
          Token._update_price f cfg env
            (save store (mkChainToken (lower address) idn))
            (mkChainToken (lower address) idn) := by
  cases fuel <;> rfl

/-! ## Success lemmas for the record pipeline -/

/-- A successful `_update_price` changes only the price field of the
record and persists the result under the record's address. -/
theorem update_price_ok (fuel : ℕ) (cfg : Config) (env : Env)
    (store : Store) (t : Token) (s2 : Store) (t2 : Token)
    (h : Token._update_price fuel cfg env store t = (s2, .ok t2)) :
    t2.address = t.address ∧ t2.name = t.name ∧ t2.symbol = t.symbol ∧
    t2.decimals = t.decimals ∧ t2.logoURI = t.logoURI ∧
    t2.stable = t.stable ∧
    t2.liquid_staked_address = t.liquid_staked_address ∧
    load s2 t.address = some t2 := by
  unfold Token._update_price at h
  cases hagg : Token.aggregated_price_in_stables cfg env t with
  | error e =>
    rw [hagg] at h
    simp at h
  | ok p =>
    rw [hagg] at h
    dsimp only at h
    split at h
    · cases fuel with
      | zero => simp at h
      | succ f =>
        dsimp only at h
        split at h
        · simp at h
        · rename_i s q heq
          simp only [Prod.mk.injEq, Except.ok.injEq] at h
          obtain ⟨hs, ht⟩ := h
          subst hs
          subst ht
          exact ⟨rfl, rfl, rfl, rfl, rfl, rfl, rfl, load_save_self s _⟩
    · simp only [Prod.mk.injEq, Except.ok.injEq] at h
      obtain ⟨hs, ht⟩ := h
      subst hs
      subst ht
      exact ⟨rfl, rfl, rfl, rfl, rfl, rfl, rfl, load_save_self store _⟩

/-- A successful `from_chain` returns a record whose identity fields come
from the chain reads, persisted under the lowercased address. -/
theorem from_chain_ok (fuel : ℕ) (cfg : Config) (env : Env)
    (store : Store) (a : String) (s2 : Store) (t2 : Token)
    (h : Token.from_chain fuel cfg env store a = (s2, .ok t2)) :
    ∃ idn, env.identity (lower a) = .ok idn ∧
      t2.address = lower a ∧ t2.name = idn.name ∧ t2.symbol = idn.symbol ∧
      t2.decimals = idn.decimals ∧ load s2 (lower a) = some t2 := by
  rw [Token.from_chain_eq] at h
  cases hid : env.identity (lower a) with
  | error e =>
    rw [hid] at h
    simp at h
  | ok idn =>
    rw [hid] at h
    cases fuel with
    | zero => simp at h
    | succ f =>
      obtain ⟨h1, h2, h3, h4, h5, h6, h7, h8⟩ :=
        update_price_ok f cfg env (save store (mkChainToken (lower a) idn))
          (mkChainToken (lower a) idn) s2 t2 h
      exact ⟨idn, rfl, h1, h2, h3, h4, h8⟩

/-- A successful `find (some a)` yields a record that is stored under the
lowercased address in the resulting cache. -/
theorem find_some_ok (fuel : ℕ) (cfg : Config) (env : Env) (store : Store)
    (a : String) (s2 : Store) (r : Option Token)
    (h : Token.find fuel cfg env store (some a) = (s2, .ok r)) :
    ∃ tk, r = some tk ∧ load s2 (lower a) = some tk := by
  rw [Token.find_eq] at h
  dsimp only at h
  cases hl : load store (lower a) with
  | some t =>
    rw [hl] at h
    simp only [Prod.mk.injEq, Except.ok.injEq] at h
    obtain ⟨hs, hr⟩ := h
    subst hs
    subst hr
    exact ⟨t, rfl, hl⟩
  | none =>
    rw [hl] at h
    cases fuel with
    | zero => simp at h
    | succ f =>
      dsimp only at h
      split at h
      · simp at h
      · rename_i s t heq
        obtain ⟨idn, _, _, _, _, _, hload⟩ :=
          from_chain_ok f cfg env store (lower a) s t heq
        rw [lower_lower] at hload
        simp only [Prod.mk.injEq, Except.ok.injEq] at h
        obtain ⟨hs, hr⟩ := h
        subst hs
        subst hr
        exact ⟨t, rfl, hload⟩

/-- The aggregated price of the reference stable token is 1, for every
environment (both source passes peg before any network access). -/
theorem aggregated_stable (cfg : Config) (env : Env) (t : Token)
    (h : t.address = cfg.STABLE_TOKEN_ADDRESS) :
    Token.aggregated_price_in_stables cfg env t = .ok 1 := by
  unfold Token.aggregated_price_in_stables Token.dexscreener_price_in_stables
    Token.defillama_price_in_stables
  simp only [if_pos h]
  by_cases hb : t.address ∈ cfg.BLUECHIP_TOKEN_ADDRESSES
  · rw [if_neg (fun hc => hc.2 hb)]
  · rw [if_pos ⟨one_ne_zero, hb⟩]

/-! ## Claims -/

/-- C1: the primary (screener) price is returned as the final aggregated
price when it is non-zero and the token is not bluechip; otherwise (zero
primary price or bluechip token) the oracle is consulted and, when the
oracle call succeeds, the oracle's price is the result — even for a
bluechip token whose primary price was non-zero. -/
theorem claim_c1 (cfg : Config) (env : Env) (t : Token) (p : ℚ)
    (hp : Token.dexscreener_price_in_stables cfg env t = .ok p) :
    (p ≠ 0 → t.address ∉ cfg.BLUECHIP_TOKEN_ADDRESSES →
      Token.aggregated_price_in_stables cfg env t = .ok p) ∧
    (∀ q : ℚ, (p = 0 ∨ t.address ∈ cfg.BLUECHIP_TOKEN_ADDRESSES) →
      Token.defillama_price_in_stables cfg env t = .ok q →
      Token.aggregated_price_in_stables cfg env t = .ok q) := by
  constructor
  · intro hne hnb
    unfold Token.aggregated_price_in_stables
    rw [hp]
    dsimp only
    rw [if_pos ⟨hne, hnb⟩]
  · intro q hcase hq
    unfold Token.aggregated_price_in_stables
    rw [hp]
    dsimp only
    rw [if_neg (fun hc => hcase.elim (fun h0 => hc.1 h0) (fun hm => hc.2 hm)),
      hq]

/-- Witness for C1 at a concrete bluechip token with a non-zero screener
price and a successful oracle call returning 3. -/
theorem claim_c1_witness :
    Token.dexscreener_price_in_stables cfg0 envOk tokBlue = .ok (5/2) ∧
    (((5 : ℚ)/2 ≠ 0 → tokBlue.address ∉ cfg0.BLUECHIP_TOKEN_ADDRESSES →
      Token.aggregated_price_in_stables cfg0 envOk tokBlue = .ok (5/2)) ∧
    (∀ q : ℚ, ((5 : ℚ)/2 = 0 ∨
        tokBlue.address ∈ cfg0.BLUECHIP_TOKEN_ADDRESSES) →
      Token.defillama_price_in_stables cfg0 envOk tokBlue = .ok q →
      Token.aggregated_price_in_stables cfg0 envOk tokBlue = .ok q)) :=
  ⟨by with_unfolding_all decide,
    claim_c1 cfg0 envOk tokBlue (5/2) (by with_unfolding_all decide)⟩

/-- C2: for the token whose address equals the configured reference
stable address, every pricing pass returns exactly 1 and `_update_price`
persists exactly 1, for every environment — in particular for
environments in which every upstream client raises, which shows no
upstream client is consulted. -/
theorem claim_c2 (fuel : ℕ) (cfg : Config) (env : Env) (store : Store)
    (t : Token) (h : t.address = cfg.STABLE_TOKEN_ADDRESS) :
    Token.dexscreener_price_in_stables cfg env t = .ok 1 ∧
    Token.defillama_price_in_stables cfg env t = .ok 1 ∧
    Token.aggregated_price_in_stables cfg env t = .ok 1 ∧
    Token.chain_price_in_stables fuel cfg env store t = (store, .ok 1) ∧
    Token._update_price fuel cfg env store t =
      (save store { t with price := 1 }, .ok { t with price := 1 }) := by
  refine ⟨?_, ?_, aggregated_stable cfg env t h, ?_, ?_⟩
  · unfold Token.dexscreener_price_in_stables
    rw [if_pos h]
  · unfold Token.defillama_price_in_stables
    rw [if_pos h]
  · rw [Token.chain_price_in_stables_eq, if_pos h]
  · rw [Token.update_price_eq, aggregated_stable cfg env t h]
    dsimp only
    rw [if_neg one_ne_zero]

/-- Witness for C2: the stablecoin record against the environment in
which every upstream client raises. -/
theorem claim_c2_witness :
    stbl0.address = cfg0.STABLE_TOKEN_ADDRESS ∧
    (Token.dexscreener_price_in_stables cfg0 envDown stbl0 = .ok 1 ∧
    Token.defillama_price_in_stables cfg0 envDown stbl0 = .ok 1 ∧
    Token.aggregated_price_in_stables cfg0 envDown stbl0 = .ok 1 ∧
    Token.chain_price_in_stables 0 cfg0 envDown [] stbl0 = ([], .ok 1) ∧
    Token._update_price 0 cfg0 envDown [] stbl0 =
      (save [] { stbl0 with price := 1 }, .ok { stbl0 with price := 1 })) :=
  ⟨rfl, claim_c2 0 cfg0 envDown [] stbl0 rfl⟩

/-- The first element kept by a filter is the first satisfying element. -/
theorem head_filter_eq_find {α : Type} (p : α → Bool) (l : List α) :
    (l.filter p).head? = l.find? p := by
  induction l with
  | nil => rfl
  | cons x xs ih =>
    by_cases h : p x
    · simp [List.filter, List.find?, h]
    · simp [List.filter, List.find?, h, ih]

/-- C4: for a non-reference token with a successful screener response,
the primary pass yields 0 on an empty pair list, otherwise parses the
first pair whose `chainId` is this chain ("kava"), falling back to the
first reported pair when no pair matches; parsing strips commas first, so
`"140344,272.43"` parses to `140344272.43`. -/
theorem claim_c4 (cfg : Config) (env : Env) (t : Token) (res : DexRes)
    (hne : t.address ≠ cfg.STABLE_TOKEN_ADDRESS)
    (hres : env.dexscreener t.address = .ok res) :
    (getPairs res = [] →
      Token.dexscreener_price_in_stables cfg env t = .ok 0) ∧
    (∀ k, (getPairs res).find? (fun p => p.chainId == "kava") = some k →
      Token.dexscreener_price_in_stables cfg env t = parse_pair k) ∧
    ((getPairs res).find? (fun p => p.chainId == "kava") = none →
      ∀ p0 rest, getPairs res = p0 :: rest →
        Token.dexscreener_price_in_stables cfg env t = parse_pair p0) ∧
    float_of_string (strip_commas "140344,272.43") =
      some (14034427243/100) := by
  refine ⟨?_, ?_, ?_, ?_⟩
  · intro h
    unfold Token.dexscreener_price_in_stables
    rw [if_neg hne, hres]
    dsimp only
    rw [h]
  · intro k hk
    rw [← head_filter_eq_find] at hk
    unfold Token.dexscreener_price_in_stables
    rw [if_neg hne, hres]
    dsimp only
    cases hp : getPairs res with
    | nil => rw [hp] at hk; simp at hk
    | cons p0 rest =>
      rw [hp] at hk
      cases hf : (p0 :: rest).filter (fun p => p.chainId == "kava") with
      | nil => rw [hf] at hk; simp at hk
      | cons k0 krest =>
        rw [hf] at hk
        simp only [List.head?_cons, Option.some.injEq] at hk
        dsimp only
        rw [hk]
  · intro hk p0 rest hp
    rw [← head_filter_eq_find] at hk
    unfold Token.dexscreener_price_in_stables
    rw [if_neg hne, hres]
    dsimp only
    rw [hp] at hk
    cases hf : (p0 :: rest).filter (fun p => p.chainId == "kava") with
    | nil => rw [hp, hf]
    | cons k0 krest => rw [hf] at hk; simp at hk
  · have h1 : strip_commas "140344,272.43" = "140344272.43" := by decide
    have h2 : float_of_string "140344272.43"
        = some (((140344272 : ℕ) : ℚ) + ((43 : ℕ) : ℚ) / 10 ^ 2) := rfl
    rw [h1, h2]
    norm_num

/-- Witness for C4 at a concrete response with one kava pair priced
"2.5". -/
theorem claim_c4_witness :
    tok0.address ≠ cfg0.STABLE_TOKEN_ADDRESS ∧
    envOk.dexscreener tok0.address = .ok resOk ∧
    ((getPairs resOk = [] →
      Token.dexscreener_price_in_stables cfg0 envOk tok0 = .ok 0) ∧
    (∀ k, (getPairs resOk).find? (fun p => p.chainId == "kava") = some k →
      Token.dexscreener_price_in_stables cfg0 envOk tok0 = parse_pair k) ∧
    ((getPairs resOk).find? (fun p => p.chainId == "kava") = none →
      ∀ p0 rest, getPairs resOk = p0 :: rest →
        Token.dexscreener_price_in_stables cfg0 envOk tok0 = parse_pair p0) ∧
    float_of_string (strip_commas "140344,272.43") =
      some (14034427243/100)) :=
  ⟨by decide, by decide,
    claim_c4 cfg0 envOk tok0 resOk (by decide) (by decide)⟩

/-- C10: a screener response whose `pairs` field is null is treated as
zero pairs (price 0), and a selected pair whose `priceUsd` is missing,
null or empty parses to 0 rather than raising. -/
theorem claim_c10 (cfg : Config) (env : Env) (t : Token) (pair : Pair)
    (hne : t.address ≠ cfg.STABLE_TOKEN_ADDRESS) :
    (env.dexscreener t.address = .ok { pairs := some none } →
      Token.dexscreener_price_in_stables cfg env t = .ok 0) ∧
    (pair.priceUsd = none ∨ pair.priceUsd = some "" →
      parse_pair pair = .ok 0) ∧
    (pair.priceUsd = none ∨ pair.priceUsd = some "" →
      env.dexscreener t.address = .ok { pairs := some (some [pair]) } →
      Token.dexscreener_price_in_stables cfg env t = .ok 0) := by
  have hparse : pair.priceUsd = none ∨ pair.priceUsd = some "" →
      parse_pair pair = .ok 0 := by
    intro hc
    unfold parse_pair price_usd_string
    rcases hc with h | h <;> rw [h] <;> rfl
  refine ⟨?_, hparse, ?_⟩
  · intro h
    unfold Token.dexscreener_price_in_stables
    rw [if_neg hne, h]
    rfl
  · intro hc h
    unfold Token.dexscreener_price_in_stables
    rw [if_neg hne, h]
    dsimp only [getPairs, Option.getD]
    by_cases hch : pair.chainId == "kava"
    · simp only [List.filter, hch]
      exact hparse hc
    · simp only [List.filter, hch]
      exact hparse hc

/-- Witness for C10: a null `pairs` response and a pair with an empty
price string. -/
theorem claim_c10_witness :
    tok0.address ≠ cfg0.STABLE_TOKEN_ADDRESS ∧
    ((envNullPairs.dexscreener tok0.address = .ok { pairs := some none } →
      Token.dexscreener_price_in_stables cfg0 envNullPairs tok0 = .ok 0) ∧
    (pairEmpty.priceUsd = none ∨ pairEmpty.priceUsd = some "" →
      parse_pair pairEmpty = .ok 0) ∧
    (pairEmpty.priceUsd = none ∨ pairEmpty.priceUsd = some "" →
      envNullPairs.dexscreener tok0.address =
        .ok { pairs := some (some [pairEmpty]) } →
      Token.dexscreener_price_in_stables cfg0 envNullPairs tok0 = .ok 0)) :=
  ⟨by decide, claim_c10 cfg0 envNullPairs tok0 pairEmpty (by decide)⟩

/-- When the aggregated price is 0 the router pass runs: with the
stablecoin record already stored, `_update_price` persists the router
outcome (0 on a contract-logic revert, the scaled output amount on
success) and propagates any other router fault. -/
theorem update_price_router (fuel : ℕ) (cfg : Config) (env : Env)
    (store : Store) (t : Token) (stbl : Token)
    (hagg : Token.aggregated_price_in_stables cfg env t = .ok 0)
    (hne : t.address ≠ cfg.STABLE_TOKEN_ADDRESS)
    (hstbl : load store (lower cfg.STABLE_TOKEN_ADDRESS) = some stbl) :
    Token._update_price (fuel + 2) cfg env store t =
      (match env.getAmountOut cfg.ROUTER_ADDRESS (10 ^ t.decimals)
          t.address stbl.address with
       | .error .contractLogicError =>
         (save store { t with price := 0 }, .ok { t with price := 0 })
       | .error e => (store, .error e)
       | .ok (amount, _) =>
         (save store { t with price := (amount : ℚ) / 10 ^ stbl.decimals },
           .ok { t with price := (amount : ℚ) / 10 ^ stbl.decimals })) := by
  rw [Token.update_price_eq, hagg]
  dsimp only
  rw [if_pos rfl, Token.chain_price_in_stables_eq]
  dsimp only
  rw [if_neg hne]
  rw [Token.find_eq]
  dsimp only
  rw [hstbl]
  dsimp only
  cases hr : env.getAmountOut cfg.ROUTER_ADDRESS (10 ^ t.decimals)
      t.address stbl.address with
  | error e => cases e <;> rfl
  | ok pr => rfl

/-- C3 counterexample: for a non-reference token whose screener reports
no pairs, an oracle raising a connection (transport) fault makes the
whole resolution raise — the fault is not converted to the primary
price, contradicting the claim as stated. -/
theorem claim_c3_cex :
    Token.aggregated_price_in_stables cfg0 envOracleDown tok0 =
      .error .connectionError ∧
    Token._update_price 2 cfg0 envOracleDown store0 tok0 =
      (store0, .error .connectionError) := by
  constructor <;> with_unfolding_all decide

/-- C3 (amended): when the screener pass itself succeeds, an oracle
fault of one of the two caught classes (`HTTPError`, `JSONDecodeError`)
is converted to the primary price; and when screener, oracle and router
all yield no data (0, 0, contract-logic revert) the resolution returns 0
without raising.  Oracle faults of any other class propagate (see the
counterexample). -/
theorem claim_c3_amended (fuel : ℕ) (cfg : Config) (env : Env)
    (store : Store) (t : Token) (stbl : Token) (p : ℚ) (e : Exc)
    (hp : Token.dexscreener_price_in_stables cfg env t = .ok p) :
    ((e = .httpError ∨ e = .jsonDecodeError) →
      Token.defillama_price_in_stables cfg env t = .error e →
      Token.aggregated_price_in_stables cfg env t = .ok p) ∧
    (p = 0 → Token.defillama_price_in_stables cfg env t = .ok 0 →
      t.address ≠ cfg.STABLE_TOKEN_ADDRESS →
      load store (lower cfg.STABLE_TOKEN_ADDRESS) = some stbl →
      env.getAmountOut cfg.ROUTER_ADDRESS (10 ^ t.decimals) t.address
        stbl.address = .error .contractLogicError →
      Token._update_price (fuel + 2) cfg env store t =
        (save store { t with price := 0 }, .ok { t with price := 0 })) := by
  constructor
  · intro he ho
    unfold Token.aggregated_price_in_stables
    rw [hp]
    dsimp only
    by_cases hc : p ≠ 0 ∧ t.address ∉ cfg.BLUECHIP_TOKEN_ADDRESSES
    · rw [if_pos hc]
    · rw [if_neg hc, ho]
      dsimp only
      rw [if_pos he]
  · intro h0 ho hne hstbl hrt
    subst h0
    have hagg : Token.aggregated_price_in_stables cfg env t = .ok 0 := by
      unfold Token.aggregated_price_in_stables
      rw [hp]
      dsimp only
      rw [if_neg (fun hc => hc.1 rfl), ho]
    rw [update_price_router fuel cfg env store t stbl hagg hne hstbl, hrt]

/-- Witness for the amended C3: screener reports no pairs (primary price
0) and the oracle raises `HTTPError`; the aggregated price is then the
primary 0 instead of an exception. -/
theorem claim_c3_witness :
    Token.dexscreener_price_in_stables cfg0 envHttpDown tok0 = .ok 0 ∧
    ((((Exc.httpError : Exc) = .httpError ∨
        (Exc.httpError : Exc) = .jsonDecodeError) →
      Token.defillama_price_in_stables cfg0 envHttpDown tok0 =
        .error .httpError →
      Token.aggregated_price_in_stables cfg0 envHttpDown tok0 = .ok 0) ∧
    ((0 : ℚ) = 0 →
      Token.defillama_price_in_stables cfg0 envHttpDown tok0 = .ok 0 →
      tok0.address ≠ cfg0.STABLE_TOKEN_ADDRESS →
      load store0 (lower cfg0.STABLE_TOKEN_ADDRESS) = some stbl0 →
      envHttpDown.getAmountOut cfg0.ROUTER_ADDRESS (10 ^ tok0.decimals)
        tok0.address stbl0.address = .error .contractLogicError →
      Token._update_price (0 + 2) cfg0 envHttpDown store0 tok0 =
        (save store0 { tok0 with price := 0 },
          .ok { tok0 with price := 0 }))) :=
  ⟨by with_unfolding_all decide,
    claim_c3_amended 0 cfg0 envHttpDown store0 tok0 stbl0 0 .httpError
      (by with_unfolding_all decide)⟩

/-- C5: the router (tertiary) pass runs exactly when the aggregated
price is 0 — for a non-zero aggregated price the persisted result is
independent of the router client (quantified over every router
behaviour `g`), while for price 0 a contract-logic revert persists 0 and
a successful call persists the output amount divided by
`10 ^ stablecoin.decimals`. -/
theorem claim_c5 (fuel : ℕ) (cfg : Config) (env : Env) (store : Store)
    (t : Token) (p : ℚ) (stbl : Token)
    (hagg : Token.aggregated_price_in_stables cfg env t = .ok p)
    (hne : t.address ≠ cfg.STABLE_TOKEN_ADDRESS)
    (hstbl : load store (lower cfg.STABLE_TOKEN_ADDRESS) = some stbl) :
    (p ≠ 0 → ∀ g, Token._update_price fuel cfg
        { env with getAmountOut := g } store t =
      (save store { t with price := p }, .ok { t with price := p })) ∧
    (p = 0 → env.getAmountOut cfg.ROUTER_ADDRESS (10 ^ t.decimals)
        t.address stbl.address = .error .contractLogicError →
      Token._update_price (fuel + 2) cfg env store t =
        (save store { t with price := 0 }, .ok { t with price := 0 })) ∧
    (∀ amount flag, p = 0 →
      env.getAmountOut cfg.ROUTER_ADDRESS (10 ^ t.decimals) t.address
        stbl.address = .ok (amount, flag) →
      Token._update_price (fuel + 2) cfg env store t =
        (save store { t with price := (amount : ℚ) / 10 ^ stbl.decimals },
          .ok { t with price := (amount : ℚ) / 10 ^ stbl.decimals })) := by
  refine ⟨?_, ?_, ?_⟩
  · intro hp g
    have henv : Token.aggregated_price_in_stables cfg
        { env with getAmountOut := g } t =
        Token.aggregated_price_in_stables cfg env t := rfl
    rw [Token.update_price_eq, henv, hagg]
    dsimp only
    rw [if_neg hp]
  · intro h0 hrt
    subst h0
    rw [update_price_router fuel cfg env store t stbl hagg hne hstbl, hrt]
  · intro amount flag h0 hrt
    subst h0
    rw [update_price_router fuel cfg env store t stbl hagg hne hstbl, hrt]

/-- Witness for C5 at a token whose aggregated price is 5/2 (non-zero,
so the persisted result ignores the router for every router client). -/
theorem claim_c5_witness :
    Token.aggregated_price_in_stables cfg0 envOk tok0 = .ok (5/2) ∧
    tok0.address ≠ cfg0.STABLE_TOKEN_ADDRESS ∧
    load store0 (lower cfg0.STABLE_TOKEN_ADDRESS) = some stbl0 ∧
    (((5 : ℚ)/2 ≠ 0 → ∀ g, Token._update_price 2 cfg0
        { envOk with getAmountOut := g } store0 tok0 =
      (save store0 { tok0 with price := 5/2 },
        .ok { tok0 with price := 5/2 })) ∧
    ((5 : ℚ)/2 = 0 → envOk.getAmountOut cfg0.ROUTER_ADDRESS
        (10 ^ tok0.decimals) tok0.address stbl0.address =
        .error .contractLogicError →
      Token._update_price (2 + 2) cfg0 envOk store0 tok0 =
        (save store0 { tok0 with price := 0 },
          .ok { tok0 with price := 0 })) ∧
    (∀ amount flag, (5 : ℚ)/2 = 0 →
      envOk.getAmountOut cfg0.ROUTER_ADDRESS (10 ^ tok0.decimals)
        tok0.address stbl0.address = .ok (amount, flag) →
      Token._update_price (2 + 2) cfg0 envOk store0 tok0 =
        (save store0
          { tok0 with price := (amount : ℚ) / 10 ^ stbl0.decimals },
          .ok { tok0 with price := (amount : ℚ) / 10 ^ stbl0.decimals }))) :=
  ⟨by with_unfolding_all decide, by decide, by decide,
    claim_c5 2 cfg0 envOk store0 tok0 (5/2) stbl0
      (by with_unfolding_all decide) (by decide) (by decide)⟩

/-- Case analysis of a successful `_update_price`: either the aggregated
price was non-zero and is persisted directly, or it was 0 and the router
pass supplied the persisted price. -/
theorem update_price_split (fuel : ℕ) (cfg : Config) (env : Env)
    (s : Store) (t : Token) (s2 : Store) (t2 : Token)
    (h : Token._update_price fuel cfg env s t = (s2, .ok t2)) :
    ∃ p, Token.aggregated_price_in_stables cfg env t = .ok p ∧
      ((p ≠ 0 ∧ t2 = { t with price := p } ∧
        s2 = save s { t with price := p }) ∨
       (p = 0 ∧ ∃ f s1 q, fuel = f + 1 ∧
        Token.chain_price_in_stables f cfg env s { t with price := 0 } =
          (s1, .ok q) ∧
        t2 = { t with price := q } ∧ s2 = save s1 { t with price := q })) := by
  rw [Token.update_price_eq] at h
  cases hagg : Token.aggregated_price_in_stables cfg env t with
  | error e =>
    rw [hagg] at h
    simp at h
  | ok p =>
    rw [hagg] at h
    dsimp only at h
    by_cases hp : p = 0
    · subst hp
      rw [if_pos rfl] at h
      cases fuel with
      | zero => simp at h
      | succ f =>
        dsimp only at h
        split at h
        · simp at h
        · rename_i s1 q heq
          simp only [Prod.mk.injEq, Except.ok.injEq] at h
          exact ⟨0, rfl,
            Or.inr ⟨rfl, f, s1, q, rfl, heq, h.2.symm, h.1.symm⟩⟩
    · rw [if_neg hp] at h
      simp only [Prod.mk.injEq, Except.ok.injEq] at h
      exact ⟨p, rfl, Or.inl ⟨hp, h.2.symm, h.1.symm⟩⟩

/-- When the stablecoin record is already stored, a successful router
pass leaves the store untouched. -/
theorem chain_price_store (fuel : ℕ) (cfg : Config) (env : Env)
    (s : Store) (t : Token) (stbl : Token) (s1 : Store) (q : ℚ)
    (hstbl : load s (lower cfg.STABLE_TOKEN_ADDRESS) = some stbl)
    (h : Token.chain_price_in_stables fuel cfg env s t = (s1, .ok q)) :
    s1 = s := by
  rw [Token.chain_price_in_stables_eq] at h
  by_cases hpeg : t.address = cfg.STABLE_TOKEN_ADDRESS
  · rw [if_pos hpeg] at h
    simp only [Prod.mk.injEq, Except.ok.injEq] at h
    exact h.1.symm
  · rw [if_neg hpeg] at h
    cases fuel with
    | zero => simp at h
    | succ f =>
      dsimp only at h
      rw [Token.find_eq] at h
      dsimp only at h
      rw [hstbl] at h
      dsimp only at h
      split at h
      · simp only [Prod.mk.injEq, Except.ok.injEq] at h
        exact h.1.symm
      · simp at h
      · simp only [Prod.mk.injEq, Except.ok.injEq] at h
        exact h.1.symm

/-- C6 counterexample: on a cold store that lacks the reference
stablecoin record, `find` on an unseen address creates two records (the
token and the stablecoin), not exactly one — the final store has two
entries while the initial store was empty. -/
theorem claim_c6_cex :
    ([] : Store).length = 0 ∧
    (Token.find 10 cfg0 envChainOnly [] (some "0xNEW")).1.length = 2 ∧
    (Token.find 10 cfg0 envChainOnly [] (some "0xNEW")).2 =
      .ok (some { address := "0xnew", name := "N", symbol := "S",
                  decimals := 2, logoURI := "", price := 4,
                  stable := false, liquid_staked_address := "" }) := by
  refine ⟨rfl, ?_, ?_⟩ <;> with_unfolding_all decide

/-- C6 (amended): an absent address yields no result; a stored address
is returned as-is (for every environment, hence without network calls);
an unseen address, provided the reference stablecoin record is already
stored, creates exactly one new record — identity fields from the chain
read, price freshly resolved and persisted before return, and every
other key of the store left unchanged.  (When the stablecoin record is
absent too, the router fallback creates it as well — see the
counterexample.) -/
theorem claim_c6_amended (fuel : ℕ) (cfg : Config) (env : Env)
    (store : Store) (a : String) (idn : Identity) (stbl : Token)
    (s2 : Store) (t2 : Token)
    (hmiss : load store (lower a) = none)
    (hstbl : load store (lower cfg.STABLE_TOKEN_ADDRESS) = some stbl)
    (hid : env.identity (lower a) = .ok idn)
    (hupd : Token._update_price fuel cfg env
        (save store (mkChainToken (lower a) idn))
        (mkChainToken (lower a) idn) = (s2, .ok t2)) :
    (∀ env2 store2, Token.find fuel cfg env2 store2 none =
      (store2, .ok none)) ∧
    (∀ env2 store2 u, load store2 (lower a) = some u →
      Token.find fuel cfg env2 store2 (some a) = (store2, .ok (some u))) ∧
    (Token.find (fuel + 2) cfg env store (some a) = (s2, .ok (some t2)) ∧
     t2.address = lower a ∧ t2.name = idn.name ∧ t2.symbol = idn.symbol ∧
     t2.decimals = idn.decimals ∧ load s2 (lower a) = some t2 ∧
     (∀ k, k ≠ lower a → load s2 k = load store k)) := by
  have hFC := update_price_ok fuel cfg env
    (save store (mkChainToken (lower a) idn)) (mkChainToken (lower a) idn)
    s2 t2 hupd
  refine ⟨?_, ?_, ?_, hFC.1, hFC.2.1, hFC.2.2.1, hFC.2.2.2.1,
    hFC.2.2.2.2.2.2.2, ?_⟩
  · intro env2 store2
    rw [Token.find_eq]
  · intro env2 store2 u hu
    rw [Token.find_eq]
    dsimp only
    rw [hu]
  · rw [Token.find_eq]
    dsimp only
    rw [hmiss]
    dsimp only
    rw [Token.from_chain_eq, lower_lower, hid]
    dsimp only
    rw [hupd]
  · intro k hk
    have hka : k ≠ (mkChainToken (lower a) idn).address := hk
    obtain ⟨p, hagg, hcase⟩ := update_price_split fuel cfg env
      (save store (mkChainToken (lower a) idn))
      (mkChainToken (lower a) idn) s2 t2 hupd
    have hstbl2 : lower cfg.STABLE_TOKEN_ADDRESS ≠ lower a := by
      intro hco
      rw [hco] at hstbl
      rw [hstbl] at hmiss
      exact Option.noConfusion hmiss
    have hstbl1 : load (save store (mkChainToken (lower a) idn))
        (lower cfg.STABLE_TOKEN_ADDRESS) = some stbl := by
      rw [load_save_other _ _ _ hstbl2]
      exact hstbl
    rcases hcase with ⟨_, _, hs2⟩ | ⟨_, f, s1, q, _, hchain, _, hs2⟩
    · subst hs2
      rw [load_save_other _ _ _ hk, load_save_other _ _ _ hka]
    · have hs1 : s1 = save store (mkChainToken (lower a) idn) :=
        chain_price_store f cfg env _ _ stbl s1 q hstbl1 hchain
      subst hs2
      subst hs1
      rw [load_save_other _ _ _ hk, load_save_other _ _ _ hka]

/-- Witness for the amended C6: finding the unseen address "0xNEW" over
a store already holding the stablecoin creates exactly the one record
`tokNew` with chain identity fields and the freshly resolved price. -/
theorem claim_c6_witness :
    load store0 (lower "0xNEW") = none ∧
    load store0 (lower cfg0.STABLE_TOKEN_ADDRESS) = some stbl0 ∧
    envOk.identity (lower "0xNEW") = .ok idn0 ∧
    Token._update_price 2 cfg0 envOk
      (save store0 (mkChainToken (lower "0xNEW") idn0))
      (mkChainToken (lower "0xNEW") idn0) =
      ([("0xnew", tokNew), ("0xusd", stbl0), ("0xaaa", tok0)],
        .ok tokNew) ∧
    ((∀ env2 store2, Token.find 2 cfg0 env2 store2 none =
      (store2, .ok none)) ∧
    (∀ env2 store2 u, load store2 (lower "0xNEW") = some u →
      Token.find 2 cfg0 env2 store2 (some "0xNEW") =
        (store2, .ok (some u))) ∧
    (Token.find (2 + 2) cfg0 envOk store0 (some "0xNEW") =
      ([("0xnew", tokNew), ("0xusd", stbl0), ("0xaaa", tok0)],
        .ok (some tokNew)) ∧
     tokNew.address = lower "0xNEW" ∧ tokNew.name = idn0.name ∧
     tokNew.symbol = idn0.symbol ∧ tokNew.decimals = idn0.decimals ∧
     load [("0xnew", tokNew), ("0xusd", stbl0), ("0xaaa", tok0)]
       (lower "0xNEW") = some tokNew ∧
     (∀ k, k ≠ lower "0xNEW" →
       load [("0xnew", tokNew), ("0xusd", stbl0), ("0xaaa", tok0)] k =
         load store0 k))) :=
  ⟨by decide, by decide, by decide, by with_unfolding_all decide,
    claim_c6_amended 2 cfg0 envOk store0 "0xNEW" idn0 stbl0
      [("0xnew", tokNew), ("0xusd", stbl0), ("0xaaa", tok0)] tokNew
      (by decide) (by decide) (by decide) (by with_unfolding_all decide)⟩

/-- The aggregated price depends on the token only through its address:
both the screener and the oracle pass key their requests (and the peg and
bluechip tests) on `t.address` alone. -/
theorem aggregated_congr (cfg : Config) (env : Env) (t u : Token)
    (h : u.address = t.address) :
    Token.aggregated_price_in_stables cfg env u =
      Token.aggregated_price_in_stables cfg env t := by
  unfold Token.aggregated_price_in_stables
    Token.dexscreener_price_in_stables Token.defillama_price_in_stables
  rw [h]

/-- Case analysis of a successful `find (some a)`: either a store hit
returning the stored record with the store unchanged, or a miss that
materialises a record from the chain identity read. -/
theorem find_cases (fuel : ℕ) (cfg : Config) (env : Env) (s : Store)
    (a : String) (s1 : Store) (r : Option Token)
    (h : Token.find fuel cfg env s (some a) = (s1, .ok r)) :
    (∃ u, load s (lower a) = some u ∧ r = some u ∧ s1 = s) ∨
    (load s (lower a) = none ∧ ∃ u idn, r = some u ∧
      env.identity (lower a) = .ok idn ∧ u.address = lower a ∧
      u.name = idn.name ∧ u.symbol = idn.symbol ∧
      u.decimals = idn.decimals ∧ load s1 (lower a) = some u) := by
  rw [Token.find_eq] at h
  dsimp only at h
  cases hl : load s (lower a) with
  | some u =>
    rw [hl] at h
    simp only [Prod.mk.injEq, Except.ok.injEq] at h
    exact Or.inl ⟨u, rfl, h.2.symm, h.1.symm⟩
  | none =>
    rw [hl] at h
    cases fuel with
    | zero => simp at h
    | succ f =>
      dsimp only at h
      split at h
      · simp at h
      · rename_i st u heq
        obtain ⟨idn, hid, haddr, hname, hsym, hdec, hload⟩ :=
          from_chain_ok f cfg env s (lower a) st u heq
        rw [lower_lower] at hid hload
        simp only [Prod.mk.injEq, Except.ok.injEq] at h
        obtain ⟨hs, hr⟩ := h
        subst hs
        subst hr
        exact Or.inr ⟨rfl, u, idn, rfl, hid, haddr.trans (lower_lower a),
          hname, hsym, hdec, hload⟩

/-- Case analysis of a successful router pass on a non-reference token:
some stablecoin record ends up stored under the lowercased reference
address (found, or freshly created when absent), and the returned quote
is 0 on a contract-logic revert or the scaled output amount. -/
theorem chain_price_cases (fuel : ℕ) (cfg : Config) (env : Env)
    (s : Store) (t : Token) (s1 : Store) (q : ℚ)
    (hne : t.address ≠ cfg.STABLE_TOKEN_ADDRESS)
    (h : Token.chain_price_in_stables fuel cfg env s t = (s1, .ok q)) :
    ∃ stbl, load s1 (lower cfg.STABLE_TOKEN_ADDRESS) = some stbl ∧
      ((load s (lower cfg.STABLE_TOKEN_ADDRESS) = some stbl ∧ s1 = s) ∨
        load s (lower cfg.STABLE_TOKEN_ADDRESS) = none) ∧
      ((env.getAmountOut cfg.ROUTER_ADDRESS (10 ^ t.decimals) t.address
          stbl.address = .error .contractLogicError ∧ q = 0) ∨
       (∃ amount flag,
         env.getAmountOut cfg.ROUTER_ADDRESS (10 ^ t.decimals) t.address
           stbl.address = .ok (amount, flag) ∧
         q = (amount : ℚ) / 10 ^ stbl.decimals)) := by
  rw [Token.chain_price_in_stables_eq, if_neg hne] at h
  cases fuel with
  | zero => simp at h
  | succ f =>
    dsimp only at h
    split at h
    · simp at h
    · simp at h
    · rename_i st stbl heq
      have hfc := find_cases f cfg env s cfg.STABLE_TOKEN_ADDRESS st
        (some stbl) heq
      have hstored : load st (lower cfg.STABLE_TOKEN_ADDRESS) =
          some stbl := by
        rcases hfc with ⟨u, hu, hru, hsu⟩ |
          ⟨hnone, u, idn, hru, _, _, _, _, _, hload⟩
        · obtain rfl : stbl = u := Option.some.inj hru
          rw [hsu]
          exact hu
        · obtain rfl : stbl = u := Option.some.inj hru
          exact hload
      have hdisj : (load s (lower cfg.STABLE_TOKEN_ADDRESS) = some stbl ∧
          st = s) ∨ load s (lower cfg.STABLE_TOKEN_ADDRESS) = none := by
        rcases hfc with ⟨u, hu, hru, hsu⟩ | ⟨hnone, _⟩
        · obtain rfl : stbl = u := Option.some.inj hru
          exact Or.inl ⟨hu, hsu⟩
        · exact Or.inr hnone
      split at h
      · rename_i hrt
        simp only [Prod.mk.injEq, Except.ok.injEq] at h
        obtain ⟨hs, hq⟩ := h
        subst hs
        exact ⟨stbl, hstored, hdisj, Or.inl ⟨hrt, hq.symm⟩⟩
      · simp at h
      · rename_i amount flag hrt
        simp only [Prod.mk.injEq, Except.ok.injEq] at h
        obtain ⟨hs, hq⟩ := h
        subst hs
        exact ⟨stbl, hstored, hdisj,
          Or.inr ⟨amount, flag, hrt, hq.symm⟩⟩

/-- Two router outcomes taken against stablecoin records with the same
address and decimals yield the same price. -/
theorem router_outcome_det (env : Env) (router : String) (amtIn : ℕ)
    (addr : String) (stbl1 stbl2 : Token) (q q2 : ℚ)
    (haddr : stbl2.address = stbl1.address)
    (hdec : stbl2.decimals = stbl1.decimals)
    (hout1 : (env.getAmountOut router amtIn addr stbl1.address =
        .error .contractLogicError ∧ q = 0) ∨
      (∃ amount flag, env.getAmountOut router amtIn addr stbl1.address =
        .ok (amount, flag) ∧ q = (amount : ℚ) / 10 ^ stbl1.decimals))
    (hout2 : (env.getAmountOut router amtIn addr stbl2.address =
        .error .contractLogicError ∧ q2 = 0) ∨
      (∃ amount flag, env.getAmountOut router amtIn addr stbl2.address =
        .ok (amount, flag) ∧ q2 = (amount : ℚ) / 10 ^ stbl2.decimals)) :
    q2 = q := by
  rw [haddr, hdec] at hout2
  rcases hout1 with ⟨hr1, hq1⟩ | ⟨a1, f1, hr1, hq1⟩ <;>
    rcases hout2 with ⟨hr2, hq2⟩ | ⟨a2, f2, hr2, hq2⟩
  · rw [hq1, hq2]
  · rw [hr1] at hr2
    simp at hr2
  · rw [hr1] at hr2
    simp at hr2
  · rw [hr1] at hr2
    have hpair : (a1, f1) = (a2, f2) := Except.ok.inj hr2
    have haa : a1 = a2 := congrArg Prod.fst hpair
    rw [hq1, hq2, haa]

/-- C7: on a stored record, a successful `_update_price` changes only
the price field (all identity fields are preserved) and persists the
record; and running it a second time against the same (deterministic)
environment yields the same price. -/
theorem claim_c7 (fuel : ℕ) (cfg : Config) (env : Env) (store : Store)
    (t t1 t2 : Token) (s1 s2 : Store)
    (hstored : load store t.address = some t)
    (h1 : Token._update_price fuel cfg env store t = (s1, .ok t1))
    (h2 : Token._update_price fuel cfg env s1 t1 = (s2, .ok t2)) :
    (t1.address = t.address ∧ t1.name = t.name ∧ t1.symbol = t.symbol ∧
     t1.decimals = t.decimals ∧ t1.logoURI = t.logoURI ∧
     t1.stable = t.stable ∧
     t1.liquid_staked_address = t.liquid_staked_address) ∧
    load s1 t.address = some t1 ∧
    t2.price = t1.price := by
  obtain ⟨ha, hn, hsy, hd, hlg, hstf, hlsa, hld⟩ :=
    update_price_ok fuel cfg env store t s1 t1 h1
  refine ⟨⟨ha, hn, hsy, hd, hlg, hstf, hlsa⟩, hld, ?_⟩
  obtain ⟨p, hagg1, hcase1⟩ :=
    update_price_split fuel cfg env store t s1 t1 h1
  obtain ⟨p2, hagg2, hcase2⟩ :=
    update_price_split fuel cfg env s1 t1 s2 t2 h2
  have hpp : p2 = p := by
    rw [aggregated_congr cfg env t t1 ha, hagg1] at hagg2
    exact (Except.ok.inj hagg2).symm
  subst hpp
  rcases hcase1 with ⟨hp, ht1, hs1e⟩ |
    ⟨hp0, f, s1', q, hfuel, hchain, ht1, hs1e⟩
  · rcases hcase2 with ⟨_, ht2, _⟩ | ⟨hp0, _⟩
    · rw [ht2, ht1]
    · exact absurd hp0 hp
  · subst hp0
    rcases hcase2 with ⟨hp, _, _⟩ |
      ⟨_, f2, s2', q2, hfuel2, hchain2, ht2, hs2e⟩
    · exact absurd rfl hp
    · have hf : f2 = f := by omega
      rw [hf] at hchain2
      have hne : t.address ≠ cfg.STABLE_TOKEN_ADDRESS := by
        intro hpeg
        rw [aggregated_stable cfg env t hpeg] at hagg1
        exact one_ne_zero (Except.ok.inj hagg1)
      have ht10 : ({t1 with price := 0} : Token) = {t with price := 0} := by
        rw [ht1]
      rw [ht10] at hchain2
      obtain ⟨stbl1, hload1, hdisj1, hout1⟩ :=
        chain_price_cases f cfg env store { t with price := 0 } s1' q
          hne hchain
      subst hs1e
      obtain ⟨stbl2, hload2, hdisj2, hout2⟩ :=
        chain_price_cases f cfg env (save s1' { t with price := q })
          { t with price := 0 } s2' q2 hne hchain2
      dsimp only at hout1 hout2
      rw [ht2, ht1]
      dsimp only
      by_cases hkey : lower cfg.STABLE_TOKEN_ADDRESS = t.address
      · have hX : load (save s1' { t with price := q })
            (lower cfg.STABLE_TOKEN_ADDRESS) =
            some { t with price := q } := by
          rw [hkey]
          exact load_save_self s1' { t with price := q }
        have hstbl2 : stbl2 = { t with price := q } := by
          rcases hdisj2 with ⟨hsome, _⟩ | hnone
          · rw [hX] at hsome
            exact (Option.some.inj hsome).symm
          · rw [hX] at hnone
            exact absurd hnone (by simp)
        have hstbl1 : stbl1 = t := by
          rcases hdisj1 with ⟨hsome, _⟩ | hnone
          · rw [hkey, hstored] at hsome
            exact (Option.some.inj hsome).symm
          · rw [hkey, hstored] at hnone
            exact absurd hnone (by simp)
        exact router_outcome_det env cfg.ROUTER_ADDRESS (10 ^ t.decimals)
          t.address stbl1 stbl2 q q2
          (by rw [hstbl1, hstbl2]) (by rw [hstbl1, hstbl2])
          hout1 hout2
      · have hX : load (save s1' { t with price := q })
            (lower cfg.STABLE_TOKEN_ADDRESS) = some stbl1 := by
          rw [load_save_other s1' { t with price := q } _
            (fun hco => hkey hco)]
          exact hload1
        have hstbl2 : stbl2 = stbl1 := by
          rcases hdisj2 with ⟨hsome, _⟩ | hnone
          · rw [hX] at hsome
            exact (Option.some.inj hsome).symm
          · rw [hX] at hnone
            exact absurd hnone (by simp)
        exact router_outcome_det env cfg.ROUTER_ADDRESS (10 ^ t.decimals)
          t.address stbl1 stbl2 q q2 (by rw [hstbl2]) (by rw [hstbl2])
          hout1 hout2

/-- Witness for C7: resolving `tok0` twice against `envOk` persists the
price 5/2 both times and leaves every identity field unchanged. -/
theorem claim_c7_witness :
    load store0 tok0.address = some tok0 ∧
    Token._update_price 2 cfg0 envOk store0 tok0 =
      ([("0xusd", stbl0), ("0xaaa", { tok0 with price := 5/2 })],
        .ok { tok0 with price := 5/2 }) ∧
    Token._update_price 2 cfg0 envOk
      [("0xusd", stbl0), ("0xaaa", { tok0 with price := 5/2 })]
      { tok0 with price := 5/2 } =
      ([("0xusd", stbl0), ("0xaaa", { tok0 with price := 5/2 })],
        .ok { tok0 with price := 5/2 }) ∧
    ((({ tok0 with price := 5/2 } : Token).address = tok0.address ∧
      ({ tok0 with price := 5/2 } : Token).name = tok0.name ∧
      ({ tok0 with price := 5/2 } : Token).symbol = tok0.symbol ∧
      ({ tok0 with price := 5/2 } : Token).decimals = tok0.decimals ∧
      ({ tok0 with price := 5/2 } : Token).logoURI = tok0.logoURI ∧
      ({ tok0 with price := 5/2 } : Token).stable = tok0.stable ∧
      ({ tok0 with price := 5/2 } : Token).liquid_staked_address =
        tok0.liquid_staked_address) ∧
     load [("0xusd", stbl0), ("0xaaa", { tok0 with price := 5/2 })]
       tok0.address = some { tok0 with price := 5/2 } ∧
     ({ tok0 with price := 5/2 } : Token).price =
       ({ tok0 with price := 5/2 } : Token).price) :=
  ⟨by decide, by with_unfolding_all decide, by with_unfolding_all decide,
    claim_c7 2 cfg0 envOk store0 tok0 { tok0 with price := 5/2 }
      { tok0 with price := 5/2 }
      [("0xusd", stbl0), ("0xaaa", { tok0 with price := 5/2 })]
      [("0xusd", stbl0), ("0xaaa", { tok0 with price := 5/2 })]
      (by decide) (by with_unfolding_all decide)
      (by with_unfolding_all decide)⟩

/-- Saving a record with a non-negative price preserves the store
invariant. -/
theorem storeNonneg_save (s : Store) (t : Token) (hs : StoreNonneg s)
    (ht : 0 ≤ t.price) : StoreNonneg (save s t) := by
  intro a u hu
  by_cases h : a = t.address
  · rw [h, load_save_self] at hu
    obtain rfl : t = u := Option.some.inj hu
    exact ht
  · rw [load_save_other s t a h] at hu
    exact hs a u hu

/-- When the screener and the oracle only report non-negative prices,
the aggregated price is non-negative. -/
theorem aggregated_nonneg (cfg : Config) (env : Env)
    (hsrc : SourcesNonneg cfg env) (t : Token) (p : ℚ)
    (h : Token.aggregated_price_in_stables cfg env t = .ok p) : 0 ≤ p := by
  unfold Token.aggregated_price_in_stables at h
  cases hd : Token.dexscreener_price_in_stables cfg env t with
  | error e =>
    rw [hd] at h
    simp at h
  | ok d =>
    rw [hd] at h
    dsimp only at h
    split at h
    · obtain rfl : d = p := Except.ok.inj h
      exact hsrc.1 t d hd
    · cases hl : Token.defillama_price_in_stables cfg env t with
      | ok q2 =>
        rw [hl] at h
        obtain rfl : q2 = p := Except.ok.inj h
        exact hsrc.2 t q2 hl
      | error e =>
        rw [hl] at h
        dsimp only at h
        split at h
        · obtain rfl : d = p := Except.ok.inj h
          exact hsrc.1 t d hd
        · simp at h

/-- Non-negativity invariant of the whole fueled pipeline: in an
environment whose screener and oracle only report non-negative prices,
`find`, `chain_price_in_stables`, `_update_price` and `from_chain` all
preserve `StoreNonneg` and only produce non-negative prices, whatever
the outcome. -/
theorem pipeline_nonneg (cfg : Config) (env : Env)
    (hsrc : SourcesNonneg cfg env) : ∀ fuel : ℕ,
    (∀ store a s2 r, StoreNonneg store →
      Token.find fuel cfg env store a = (s2, r) →
      StoreNonneg s2 ∧ ∀ u, r = .ok (some u) → 0 ≤ u.price) ∧
    (∀ store t s2 r, StoreNonneg store →
      Token.chain_price_in_stables fuel cfg env store t = (s2, r) →
      StoreNonneg s2 ∧ ∀ q, r = .ok q → 0 ≤ q) ∧
    (∀ store t s2 r, StoreNonneg store →
      Token._update_price fuel cfg env store t = (s2, r) →
      StoreNonneg s2 ∧ ∀ u, r = .ok u → 0 ≤ u.price) ∧
    (∀ store a s2 r, StoreNonneg store →
      Token.from_chain fuel cfg env store a = (s2, r) →
      StoreNonneg s2 ∧ ∀ u, r = .ok u → 0 ≤ u.price) := by
  intro fuel
  induction fuel with
  | zero =>
    refine ⟨?_, ?_, ?_, ?_⟩
    · intro store a s2 r hs h
      rw [Token.find_eq] at h
      cases a with
      | none =>
        dsimp only at h
        simp only [Prod.mk.injEq] at h
        obtain ⟨rfl, rfl⟩ := h
        exact ⟨hs, by intro u hu; simp at hu⟩
      | some a =>
        dsimp only at h
        cases hl : load store (lower a) with
        | some u =>
          rw [hl] at h
          simp only [Prod.mk.injEq] at h
          obtain ⟨rfl, rfl⟩ := h
          refine ⟨hs, ?_⟩
          intro u2 hu2
          simp only [Except.ok.injEq, Option.some.injEq] at hu2
          exact hu2 ▸ hs _ u hl
        | none =>
          rw [hl] at h
          simp only [Prod.mk.injEq] at h
          obtain ⟨rfl, rfl⟩ := h
          exact ⟨hs, by intro u hu; simp at hu⟩
    · intro store t s2 r hs h
      rw [Token.chain_price_in_stables_eq] at h
      by_cases hpeg : t.address = cfg.STABLE_TOKEN_ADDRESS
      · rw [if_pos hpeg] at h
        simp only [Prod.mk.injEq] at h
        obtain ⟨rfl, rfl⟩ := h
        refine ⟨hs, ?_⟩
        intro q hq
        simp only [Except.ok.injEq] at hq
        exact hq ▸ zero_le_one
      · rw [if_neg hpeg] at h
        simp only [Prod.mk.injEq] at h
        obtain ⟨rfl, rfl⟩ := h
        exact ⟨hs, by intro q hq; simp at hq⟩
    · intro store t s2 r hs h
      rw [Token.update_price_eq] at h
      cases hagg : Token.aggregated_price_in_stables cfg env t with
      | error e =>
        rw [hagg] at h
        simp only [Prod.mk.injEq] at h
        obtain ⟨rfl, rfl⟩ := h
        exact ⟨hs, by intro u hu; simp at hu⟩
      | ok p =>
        have hp0 : 0 ≤ p := aggregated_nonneg cfg env hsrc t p hagg
        rw [hagg] at h
        dsimp only at h
        by_cases hp : p = 0
        · rw [if_pos hp] at h
          simp only [Prod.mk.injEq] at h
          obtain ⟨rfl, rfl⟩ := h
          exact ⟨hs, by intro u hu; simp at hu⟩
        · rw [if_neg hp] at h
          simp only [Prod.mk.injEq] at h
          obtain ⟨rfl, rfl⟩ := h
          refine ⟨storeNonneg_save store _ hs hp0, ?_⟩
          intro u hu
          simp only [Except.ok.injEq] at hu
          subst hu
          exact hp0
    · intro store a s2 r hs h
      rw [Token.from_chain_eq] at h
      cases hid : env.identity (lower a) with
      | error e =>
        rw [hid] at h
        simp only [Prod.mk.injEq] at h
        obtain ⟨rfl, rfl⟩ := h
        exact ⟨hs, by intro u hu; simp at hu⟩
      | ok idn =>
        rw [hid] at h
        simp only [Prod.mk.injEq] at h
        obtain ⟨rfl, rfl⟩ := h
        refine ⟨storeNonneg_save store _ hs le_rfl, ?_⟩
        intro u hu
        simp at hu
  | succ f ih =>
    obtain ⟨ihf, ihc, ihu, ihfc⟩ := ih
    refine ⟨?_, ?_, ?_, ?_⟩
    · intro store a s2 r hs h
      rw [Token.find_eq] at h
      cases a with
      | none =>
        dsimp only at h
        simp only [Prod.mk.injEq] at h
        obtain ⟨rfl, rfl⟩ := h
        exact ⟨hs, by intro u hu; simp at hu⟩
      | some a =>
        dsimp only at h
        cases hl : load store (lower a) with
        | some u =>
          rw [hl] at h
          simp only [Prod.mk.injEq] at h
          obtain ⟨rfl, rfl⟩ := h
          refine ⟨hs, ?_⟩
          intro u2 hu2
          simp only [Except.ok.injEq, Option.some.injEq] at hu2
          exact hu2 ▸ hs _ u hl
        | none =>
          rw [hl] at h
          dsimp only at h
          split at h
          · rename_i s e heq
            simp only [Prod.mk.injEq] at h
            obtain ⟨rfl, rfl⟩ := h
            exact ⟨(ihfc store (lower a) s (.error e) hs heq).1,
              by intro u hu; simp at hu⟩
          · rename_i s u heq
            simp only [Prod.mk.injEq] at h
            obtain ⟨rfl, rfl⟩ := h
            have hfc := ihfc store (lower a) s (.ok u) hs heq
            refine ⟨hfc.1, ?_⟩
            intro u2 hu2
            simp only [Except.ok.injEq, Option.some.injEq] at hu2
            exact hu2 ▸ hfc.2 u rfl
    · intro store t s2 r hs h
      rw [Token.chain_price_in_stables_eq] at h
      by_cases hpeg : t.address = cfg.STABLE_TOKEN_ADDRESS
      · rw [if_pos hpeg] at h
        simp only [Prod.mk.injEq] at h
        obtain ⟨rfl, rfl⟩ := h
        refine ⟨hs, ?_⟩
        intro q hq
        simp only [Except.ok.injEq] at hq
        exact hq ▸ zero_le_one
      · rw [if_neg hpeg] at h
        dsimp only at h
        split at h
        · rename_i s e heq
          simp only [Prod.mk.injEq] at h
          obtain ⟨rfl, rfl⟩ := h
          exact ⟨(ihf store (some cfg.STABLE_TOKEN_ADDRESS) s (.error e)
            hs heq).1, by intro q hq; simp at hq⟩
        · rename_i s heq
          simp only [Prod.mk.injEq] at h
          obtain ⟨rfl, rfl⟩ := h
          exact ⟨(ihf store (some cfg.STABLE_TOKEN_ADDRESS) s (.ok none)
            hs heq).1, by intro q hq; simp at hq⟩
        · rename_i s stbl heq
          have hss := ihf store (some cfg.STABLE_TOKEN_ADDRESS) s
            (.ok (some stbl)) hs heq
          split at h
          · simp only [Prod.mk.injEq] at h
            obtain ⟨rfl, rfl⟩ := h
            refine ⟨hss.1, ?_⟩
            intro q hq
            simp only [Except.ok.injEq] at hq
            exact hq ▸ le_rfl
          · simp only [Prod.mk.injEq] at h
            obtain ⟨rfl, rfl⟩ := h
            exact ⟨hss.1, by intro q hq; simp at hq⟩
          · rename_i amount flag hrt
            simp only [Prod.mk.injEq] at h
            obtain ⟨rfl, rfl⟩ := h
            refine ⟨hss.1, ?_⟩
            intro q hq
            simp only [Except.ok.injEq] at hq
            rw [← hq]
            positivity
    · intro store t s2 r hs h
      rw [Token.update_price_eq] at h
      cases hagg : Token.aggregated_price_in_stables cfg env t with
      | error e =>
        rw [hagg] at h
        simp only [Prod.mk.injEq] at h
        obtain ⟨rfl, rfl⟩ := h
        exact ⟨hs, by intro u hu; simp at hu⟩
      | ok p =>
        have hp0 : 0 ≤ p := aggregated_nonneg cfg env hsrc t p hagg
        rw [hagg] at h
        dsimp only at h
        by_cases hp : p = 0
        · rw [if_pos hp] at h
          split at h
          · rename_i s e heq
            simp only [Prod.mk.injEq] at h
            obtain ⟨rfl, rfl⟩ := h
            exact ⟨(ihc store { t with price := p } s (.error e) hs
              heq).1, by intro u hu; simp at hu⟩
          · rename_i s q heq
            have hcc := ihc store { t with price := p } s (.ok q) hs heq
            simp only [Prod.mk.injEq] at h
            obtain ⟨rfl, rfl⟩ := h
            have hq : 0 ≤ q := hcc.2 q rfl
            refine ⟨storeNonneg_save s _ hcc.1 hq, ?_⟩
            intro u hu
            simp only [Except.ok.injEq] at hu
            subst hu
            exact hq
        · rw [if_neg hp] at h
          simp only [Prod.mk.injEq] at h
          obtain ⟨rfl, rfl⟩ := h
          refine ⟨storeNonneg_save store _ hs hp0, ?_⟩
          intro u hu
          simp only [Except.ok.injEq] at hu
          subst hu
          exact hp0
    · intro store a s2 r hs h
      rw [Token.from_chain_eq] at h
      cases hid : env.identity (lower a) with
      | error e =>
        rw [hid] at h
        simp only [Prod.mk.injEq] at h
        obtain ⟨rfl, rfl⟩ := h
        exact ⟨hs, by intro u hu; simp at hu⟩
      | ok idn =>
        rw [hid] at h
        dsimp only at h
        exact ihu (save store (mkChainToken (lower a) idn))
          (mkChainToken (lower a) idn) s2 r
          (storeNonneg_save store _ hs le_rfl) h

/-- The concrete environment `envOk` only reports non-negative prices. -/
theorem sourcesNonneg_envOk : SourcesNonneg cfg0 envOk := by
  constructor
  · intro t q h
    by_cases hpeg : t.address = cfg0.STABLE_TOKEN_ADDRESS
    · have hval : Token.dexscreener_price_in_stables cfg0 envOk t =
          .ok 1 := by
        unfold Token.dexscreener_price_in_stables
        rw [if_pos hpeg]
      rw [hval] at h
      obtain rfl : (1 : ℚ) = q := Except.ok.inj h
      exact zero_le_one
    · have hval : Token.dexscreener_price_in_stables cfg0 envOk t =
          .ok (((2 : ℕ) : ℚ) + ((5 : ℕ) : ℚ) / 10 ^ 1) := by
        unfold Token.dexscreener_price_in_stables
        rw [if_neg hpeg]
        rfl
      rw [hval] at h
      obtain rfl := Except.ok.inj h
      positivity
  · intro t q h
    by_cases hpeg : t.address = cfg0.STABLE_TOKEN_ADDRESS
    · have hval : Token.defillama_price_in_stables cfg0 envOk t =
          .ok 1 := by
        unfold Token.defillama_price_in_stables
        rw [if_pos hpeg]
      rw [hval] at h
      obtain rfl : (1 : ℚ) = q := Except.ok.inj h
      exact zero_le_one
    · have hval : Token.defillama_price_in_stables cfg0 envOk t =
          .ok 3 := by
        unfold Token.defillama_price_in_stables
        rw [if_neg hpeg]
        rfl
      rw [hval] at h
      obtain rfl : (3 : ℚ) = q := Except.ok.inj h
      norm_num

/-- The concrete store `store0` only holds non-negative prices. -/
theorem storeNonneg_store0 : StoreNonneg store0 := by
  intro a u hu
  simp only [store0, load] at hu
  split at hu
  · obtain rfl : stbl0 = u := Option.some.inj hu
    exact zero_le_one
  · split at hu
    · obtain rfl : tok0 = u := Option.some.inj hu
      exact le_rfl
    · exact absurd hu (by simp)

/-- C8 counterexample: against a screener reporting the price string
"-5", `_update_price` persists the negative price −5 as-is — no
operation guards against persisting a negative price. -/
theorem claim_c8_cex :
    Token._update_price 1 cfg0 envNeg [] tok0 =
      (save [] { tok0 with price := -5 }, .ok { tok0 with price := -5 }) ∧
    ({ tok0 with price := -5 } : Token).price < 0 ∧
    load (save [] { tok0 with price := -5 }) tok0.address =
      some { tok0 with price := -5 } := by
  refine ⟨?_, ?_, ?_⟩ <;> with_unfolding_all decide

/-- C8 (amended): provided the screener and oracle passes only report
non-negative prices, `_update_price` preserves the invariant that every
stored record has a non-negative price, and any record it returns has a
non-negative price. (Without the proviso, a negative upstream price is
persisted as-is — see the counterexample.) -/
theorem claim_c8_amended (fuel : ℕ) (cfg : Config) (env : Env)
    (store : Store) (t : Token) (s2 : Store) (r : Except Exc Token)
    (hsrc : SourcesNonneg cfg env) (hst : StoreNonneg store)
    (h : Token._update_price fuel cfg env store t = (s2, r)) :
    StoreNonneg s2 ∧ ∀ u, r = .ok u → 0 ≤ u.price :=
  (pipeline_nonneg cfg env hsrc fuel).2.2.1 store t s2 r hst h

/-- Witness for the amended C8: a concrete resolution of `tok0` against
`envOk` over `store0`. -/
theorem claim_c8_witness :
    SourcesNonneg cfg0 envOk ∧ StoreNonneg store0 ∧
    Token._update_price 2 cfg0 envOk store0 tok0 =
      ([("0xusd", stbl0), ("0xaaa", { tok0 with price := 5/2 })],
        .ok { tok0 with price := 5/2 }) ∧
    (StoreNonneg [("0xusd", stbl0),
        ("0xaaa", { tok0 with price := 5/2 })] ∧
      ∀ u, (Except.ok { tok0 with price := 5/2 } : Except Exc Token) =
        .ok u → 0 ≤ u.price) :=
  ⟨sourcesNonneg_envOk, storeNonneg_store0,
    by with_unfolding_all decide,
    claim_c8_amended 2 cfg0 envOk store0 tok0
      [("0xusd", stbl0), ("0xaaa", { tok0 with price := 5/2 })]
      (.ok { tok0 with price := 5/2 })
      sourcesNonneg_envOk storeNonneg_store0
      (by with_unfolding_all decide)⟩

/-- C9 counterexample: the `try` in `from_tokenlists` wraps the whole
per-feed entry loop, so when the first entry of the only feed raises
(here: a missing `liquid_staked_address` key), the remaining entries of
that feed are skipped — `eGood` is not ingested, although the same
entry is ingested fine when it is the only entry of the feed. -/
theorem claim_c9_cex :
    Token.from_tokenlists 5 cfg0 envTL [] = [] ∧
    load (Token.from_tokenlists 5 cfg0 envTL2 []) "0xg" =
      some { address := "0xg", name := "G", symbol := "G", decimals := 1,
             logoURI := "", price := 5/2, stable := false,
             liquid_staked_address := "" } := by
  constructor <;> with_unfolding_all decide

/-- C9 (amended): a raising entry aborts the remaining entries of its
own feed (the exception propagates out of the inner loop), and any
failure while fetching or processing one feed is swallowed so that
ingestion continues with the next feed, keeping the store as mutated so
far. -/
theorem claim_c9_amended (fuel : ℕ) (cfg : Config) (env : Env)
    (chainid : ℤ) (store s : Store) (e : TLEntry) (rest : List TLEntry)
    (ex : Exc) (u : String) (urls : List String) (es : List TLEntry) :
    (process_entry fuel cfg env chainid store e = (s, .error ex) →
      process_entries fuel cfg env chainid store (e :: rest) =
        (s, .error ex)) ∧
    (env.feeds u = .error ex →
      from_tokenlists_go fuel cfg env (u :: urls) store =
        from_tokenlists_go fuel cfg env urls store) ∧
    (env.feeds u = .ok (some es) →
      process_entries fuel cfg env env.chain_id store es =
        (s, .error ex) →
      from_tokenlists_go fuel cfg env (u :: urls) store =
        from_tokenlists_go fuel cfg env urls s) := by
  refine ⟨?_, ?_, ?_⟩
  · intro h
    unfold process_entries
    rw [h]
  · intro h
    show (let store1 :=
        match env.feeds u with
        | .error _ => store
        | .ok none => store
        | .ok (some entries) =>
          (process_entries fuel cfg env env.chain_id store entries).1;
      from_tokenlists_go fuel cfg env urls store1) =
      from_tokenlists_go fuel cfg env urls store
    rw [h]
  · intro hf hp
    show (let store1 :=
        match env.feeds u with
        | .error _ => store
        | .ok none => store
        | .ok (some entries) =>
          (process_entries fuel cfg env env.chain_id store entries).1;
      from_tokenlists_go fuel cfg env urls store1) =
      from_tokenlists_go fuel cfg env urls s
    rw [hf]
    dsimp only
    rw [hp]

/-- Witness for the amended C9: the raising entry `eBad` aborts its
feed's remaining entries. -/
theorem claim_c9_witness :
    process_entry 5 cfg0 envTL 2222 [] eBad = ([], .error .keyError) ∧
    process_entries 5 cfg0 envTL 2222 [] [eBad, eGood] =
      ([], .error .keyError) :=
  ⟨by with_unfolding_all decide,
    (claim_c9_amended 5 cfg0 envTL 2222 [] [] eBad [eGood] .keyError
      "u1" [] []).1 (by with_unfolding_all decide)⟩

end Magma
